import Mathlib

/-!
Verification development for the rss_email feed poller.

The Go sources are shallowly embedded: durations and instants are `Int`
nanoseconds (Go's `time.Duration` / `time.Time` are int64-nanosecond based),
with two's-complement wrap made explicit where the Go arithmetic can overflow;
the SQLite `sent_items` table is embedded as the list of its
`(feed_url, item_guid)` rows (the only columns any query of the program
reads); the network, the feed parser and the mail sender are external
collaborators, represented by explicit outcome values and oracles.
-/

namespace RssEmail

/-! ## Time units (Go `time` package constants, in nanoseconds) -/

def goSecond : Int := 1000000000

def goMinute : Int := 60 * goSecond

def goHour : Int := 60 * goMinute

/-- `const StandardInterval = 60 * time.Minute` (main.go). -/
def StandardInterval : Int := 60 * goMinute

/-- Two's-complement wrap of a mathematical integer into int64, the semantics
Go gives an overflowing `int64`/`time.Duration` multiplication. -/
def wrap64 (x : Int) : Int := (x + 2 ^ 63) % 2 ^ 64 - 2 ^ 63

/-! ## Go `strconv.Atoi`

`Atoi` accepts an optional sign followed by one or more ASCII digits and
errors on anything else, including values outside the int64 range (the code
only looks at whether the error is nil, so an out-of-range numeral behaves
like a parse failure). -/

def goDigitsVal : List Char → Option Nat
  | [] => some 0
  | c :: cs =>
    if c.isDigit then
      match goDigitsVal cs with
      | some rest => some ((c.toNat - 48) * 10 ^ cs.length + rest)
      | none => none
    else none

def goAtoi (s : String) : Option Int :=
  match s.toList with
  | [] => none
  | c :: cs =>
    let signed : Bool × List Char :=
      if c = '-' then (true, cs) else if c = '+' then (false, cs) else (false, c :: cs)
    match signed.2 with
    | [] => none
    | ds =>
      match goDigitsVal ds with
      | none => none
      | some n =>
        let v : Int := if signed.1 then -(n : Int) else (n : Int)
        if v < -(2 ^ 63) ∨ 2 ^ 63 - 1 < v then none else some v

/-! ## main.go: parseRetryAfter and calculateBackoff

`http.ParseTime` followed by `time.Until` is the external date-parsing
collaborator; it is abstracted as an oracle `dateUntil : String → Option Int`
giving, for a header that parses as an HTTP date, the signed duration from
now until that date (`none` when the header is not an HTTP date). -/

/-- main.go `parseRetryAfter`: empty header is 0; an integer header is that
many seconds (the int64 product `time.Duration(seconds) * time.Second` wraps);
otherwise an HTTP-date header gives the time until that date; anything else
is 0. -/
def parseRetryAfter (dateUntil : String → Option Int) (header : String) : Int :=
  if header = "" then 0
  else
    match goAtoi header with
    | some seconds => wrap64 (seconds * goSecond)
    | none =>
      match dateUntil header with
      | some d => d
      | none => 0

/-- `time.Duration(math.Pow(2, float64(e)))` for an exponent `e = errorCount - 1`:
exact for `0 ≤ e` (a power of two is an exact float64 up to `2^1023`, and the
claims stay below the int64 conversion bound), and 0 for `e < 0` (the
fractional value truncates to 0 in the float-to-Duration conversion). -/
def powDur (e : Int) : Int := if e < 0 then 0 else 2 ^ e.toNat

/-- The exponential-backoff duration of main.go `calculateBackoff`:
`StandardInterval * time.Duration(math.Pow(2, float64(errorCount-1)))` with
int64 wrap, then clamped above at 24 hours and below at `StandardInterval`. -/
def backoffDuration (errorCount : Int) : Int :=
  let backoff := wrap64 (StandardInterval * powDur (errorCount - 1))
  let backoff2 := if 24 * goHour < backoff then 24 * goHour else backoff
  if backoff2 < StandardInterval then StandardInterval else backoff2

/-- main.go `calculateBackoff`: 410 Gone disables the feed for 365 days; a
Retry-After parsing to a positive duration is honored exactly; otherwise
exponential backoff from the error count. Returns the absolute next-check
instant. -/
def calculateBackoff (dateUntil : String → Option Int) (now : Int)
    (status : Int) (retryAfter : String) (errorCount : Int) : Int :=
  if status = 410 then now + 365 * 24 * goHour
  else if 0 < parseRetryAfter dateUntil retryAfter then
    now + parseRetryAfter dateUntil retryAfter
  else now + backoffDuration errorCount

example : goAtoi "120" = some 120 := by decide
example : goAtoi "0" = some 0 := by decide
example : goAtoi "-5" = some (-5) := by decide
example : goAtoi "" = none := by decide
example : goAtoi "12a" = none := by decide
example : goAtoi "Wed" = none := by decide
example : backoffDuration 1 = StandardInterval := by decide
example : backoffDuration 2 = 2 * StandardInterval := by decide
example : backoffDuration 10 = 24 * goHour := by decide
example : backoffDuration 23 = StandardInterval := by decide

/-! ## rss.go: FeedItem, FeedResult, GetMostRecentItem -/

/-- rss.go `FeedItem`. `published` is the optional `*time.Time` publish time
(nanoseconds). -/
structure FeedItem where
  title : String
  link : String
  guid : String
  published : Option Int
  summary : String
deriving DecidableEq

/-- rss.go `FeedResult`. -/
structure FeedResult where
  feedTitle : String
  items : List FeedItem
  lastModified : String
  etag : String
  retryAfter : String
  statusCode : Int
  notModified : Bool
deriving DecidableEq

/-- The loop of rss.go `GetMostRecentItem`, threading the running `mostRecent`
candidate. The second component records that every dereference
`*mostRecent.Published` found a non-nil pointer; a `false` marks the (dead)
branch where Go would dereference nil. -/
def getMostRecentAux : List FeedItem → Option FeedItem → Option FeedItem × Bool
  | [], best => (best, true)
  | item :: rest, best =>
    match item.published with
    | none => getMostRecentAux rest best
    | some t =>
      match best with
      | none => getMostRecentAux rest (some item)
      | some b =>
        match b.published with
        | none => (some b, false)
        | some bt =>
          if bt < t then getMostRecentAux rest (some item)
          else getMostRecentAux rest (some b)

/-- rss.go `GetMostRecentItem`: nil on an empty slice; otherwise the item the
loop selected, falling back to the first item when no item has a publish
time. -/
def GetMostRecentItem (items : List FeedItem) : Option FeedItem :=
  match items with
  | [] => none
  | first :: _ =>
    match (getMostRecentAux items none).1 with
    | some mr => some mr
    | none => some first

/-! ## database.go: the sent_items store

The `sent_items` table is embedded as the list of its
`(feed_url, item_guid)` rows, the projection to the two columns constrained
by `UNIQUE(feed_url, item_guid)` and read by every query of the program
(`id` and `sent_at` influence nothing the program observes). -/

abbrev SentStore := List (String × String)

/-- The SQLite error text the driver reports when the INSERT of MarkItemSent
hits the `UNIQUE(feed_url, item_guid)` constraint. -/
def sqlUniqueError : String :=
  "UNIQUE constraint failed: sent_items.feed_url, sent_items.item_guid"

/-- `db.Exec("INSERT INTO sent_items ...")` under the UNIQUE constraint of
Initialize (database.go): appending the new row, or the constraint error when
the pair is already present. -/
def insertSentItem (store : SentStore) (feedURL itemGUID : String) :
    Except String SentStore :=
  if (feedURL, itemGUID) ∈ store then .error sqlUniqueError
  else .ok (store ++ [(feedURL, itemGUID)])

/-- database.go `IsItemSent`: `SELECT COUNT(*) ... WHERE feed_url = ? AND
item_guid = ?` compared with 0. -/
def IsItemSent (store : SentStore) (feedURL itemGUID : String) : Bool :=
  decide ((feedURL, itemGUID) ∈ store)

/-- database.go `MarkItemSent`: the INSERT, with the UNIQUE-constraint error
swallowed (returned as success, table unchanged). The Bool is `err == nil`. -/
def MarkItemSent (store : SentStore) (feedURL itemGUID : String) :
    SentStore × Bool :=
  match insertSentItem store feedURL itemGUID with
  | .ok store2 => (store2, true)
  | .error e => if e = sqlUniqueError then (store, true) else (store, false)

/-- database.go `HasFeedItems`: `SELECT COUNT(*) ... WHERE feed_url = ?`
compared with 0. -/
def HasFeedItems (store : SentStore) (feedURL : String) : Bool :=
  store.any (fun p => p.1 = feedURL)

/-! ## main.go: item delivery

`SendEmail` (email.go, the notification collaborator) is abstracted as an
oracle `sendOK : FeedItem → Bool` giving, per item attempted in a cycle,
whether the transmission succeeds. Every hand-off to the collaborator is
recorded as a `Delivery` in an append-only log, so that delivery counts can
be stated. -/

/-- One hand-off of an item to the notification collaborator: which pair was
offered and whether `SendEmail` reported success. -/
structure Delivery where
  feedURL : String
  guid : String
  ok : Bool
deriving DecidableEq

/-- The durable sent-items table together with the history of hand-offs to
the notification collaborator. -/
structure SysState where
  sent : SentStore
  log : List Delivery
deriving DecidableEq

/-- main.go `sendItem`: hand the item to `SendEmail`; only on success call
`MarkItemSent` (on failure the function returns before marking). -/
def sendItem (sendOK : FeedItem → Bool) (feedURL : String) (item : FeedItem)
    (s : SysState) : SysState :=
  if sendOK item then
    { sent := (MarkItemSent s.sent feedURL item.guid).1,
      log := s.log ++ [⟨feedURL, item.guid, true⟩] }
  else
    { s with log := s.log ++ [⟨feedURL, item.guid, false⟩] }

/-- main.go `processExistingFeed`: for each fetched item, send it unless
`IsItemSent` already holds for its pair. -/
def processExistingFeed (sendOK : FeedItem → Bool) (feedURL : String)
    (items : List FeedItem) (s : SysState) : SysState :=
  items.foldl
    (fun st item =>
      if IsItemSent st.sent feedURL item.guid then st
      else sendItem sendOK feedURL item st)
    s

/-- The loop body of main.go `processNewFeed`: mark every item other than the
selected most-recent one as sent without delivering it. -/
def markOther (feedURL mrGuid : String) (st : SysState) (item : FeedItem) :
    SysState :=
  if item.guid ≠ mrGuid then
    { st with sent := (MarkItemSent st.sent feedURL item.guid).1 }
  else st

/-- main.go `processNewFeed`: send only `GetMostRecentItem`, then mark all
other items sent. -/
def processNewFeed (sendOK : FeedItem → Bool) (feedURL : String)
    (items : List FeedItem) (s : SysState) : SysState :=
  match GetMostRecentItem items with
  | none => s
  | some mostRecent =>
    (items.foldl (markOther feedURL mostRecent.guid)
      (sendItem sendOK feedURL mostRecent s))

/-- The delivery portion of one poll of one feed (main.go `processFeed` lines
after a successful fetch): nothing on an empty item list, otherwise the
existing-feed or new-feed branch keyed on `HasFeedItems`. -/
def deliverStep (sendOK : FeedItem → Bool) (feedURL : String)
    (items : List FeedItem) (s : SysState) : SysState :=
  if items.isEmpty then s
  else if HasFeedItems s.sent feedURL then
    processExistingFeed sendOK feedURL items s
  else
    processNewFeed sendOK feedURL items s

/-- One poll cycle event for one feed: the fetched item list and the mail
collaborator's outcomes for that cycle. A skipped or not-modified poll is an
event with an empty item list (it touches no delivery state). -/
structure CycleEvent where
  feedURL : String
  items : List FeedItem
  sendOK : FeedItem → Bool

/-- All poll cycles from process start (empty database): each event runs the
delivery portion of `processFeed` against the accumulated state. -/
def runCycles (events : List CycleEvent) : SysState :=
  events.foldl (fun s e => deliverStep e.sendOK e.feedURL e.items s) ⟨[], []⟩

/-- Whether a log entry is a successful delivery of the pair `(f, g)`. -/
def deliveredMatch (f g : String) (d : Delivery) : Bool :=
  decide (d.feedURL = f) && decide (d.guid = g) && d.ok

/-- How many times the pair `(f, g)` was successfully delivered in a log. -/
def okCount (f g : String) (log : List Delivery) : Nat :=
  log.countP (deliveredMatch f g)

/-- Whether a log entry is any hand-off of the pair `(f, g)` to the
notification collaborator, successful or not. -/
def offerMatch (f g : String) (d : Delivery) : Bool :=
  decide (d.feedURL = f) && decide (d.guid = g)

/-! ## main.go: the poll orchestrator and feed metadata -/

/-- database.go `FeedMetadata`: one row of the `feed_metadata` table. -/
structure FeedMetadata where
  feedURL : String
  lastModified : String
  etag : String
  lastChecked : Int
  lastPollStatus : Int
  nextCheckAfter : Option Int
  errorCount : Int
deriving DecidableEq

/-- Modelled from the spec: `UpsertFeedMetadata` is named as the Persistent
Store's metadata writer (spec §6) and called by main.go, but no
implementation of it is among the repository's files. Per the spec's
FeedMetadata lifecycle — "created (upserted) on the feed's first poll attempt
(success or failure); updated on every poll attempt" — it creates or replaces
the feed's row with the given validators, status, error count and next-check
time, stamping `last_checked` with the current time. -/
def UpsertFeedMetadata (feedURL lastModified etag : String)
    (status errorCount : Int) (nextCheck now : Int) : FeedMetadata :=
  { feedURL := feedURL
    lastModified := lastModified
    etag := etag
    lastChecked := now
    lastPollStatus := status
    nextCheckAfter := some nextCheck
    errorCount := errorCount }

/-- The due-check guard of main.go `processFeed` (lines 83-84):
`metadata.NextCheckAfter != nil && time.Now().Before(*metadata.NextCheckAfter)
|| time.Since(metadata.LastChecked) < StandardInterval`. -/
def dueSkip (m : FeedMetadata) (now : Int) : Bool :=
  (match m.nextCheckAfter with
   | some t => decide (now < t)
   | none => false)
  || decide (now - m.lastChecked < StandardInterval)

/-- The HTTP response of one fetch, as FetchFeed reads it: status code and
the Last-Modified / ETag / Retry-After header values (empty when absent). -/
structure HTTPResponse where
  statusCode : Int
  lastModified : String
  etag : String
  retryAfter : String
deriving DecidableEq

/-- The feed-parsing collaborator's outcome on a 200 body (gofeed behind
`normalizeFeedItem`): the declared title and the normalized item list, or a
parse failure. -/
inductive ParseResult where
  | ok (title : String) (items : List FeedItem)
  | fail
deriving DecidableEq

/-- What one call of rss.go `FetchFeed` produced, as main.go distinguishes
it: `err != nil` with a nil result (network-level failure), `err != nil` with
a non-nil result (429, 410, other non-200, body read or parse failure), or
`err == nil` (HTTP 200 parsed, or 304). -/
inductive FetchOutcome where
  | netError
  | httpError (result : FeedResult)
  | ok (result : FeedResult)
deriving DecidableEq

/-- rss.go `FetchFeed` from the response onward (lines 62-116): build the
result from the response headers, classify by status — 304 is NotModified
(no body read), 429 and 410 and any other non-200 return the result with an
error, 200 hands the body to the parser — with the title falling back to the
URL. -/
def fetchClassify (url : String) (resp : HTTPResponse) (parse : ParseResult) :
    FetchOutcome :=
  let base : FeedResult :=
    { feedTitle := ""
      items := []
      lastModified := resp.lastModified
      etag := resp.etag
      retryAfter := resp.retryAfter
      statusCode := resp.statusCode
      notModified := false }
  if resp.statusCode = 304 then
    .ok { base with notModified := true, feedTitle := url }
  else if resp.statusCode = 429 then .httpError base
  else if resp.statusCode ≠ 200 then .httpError base
  else
    match parse with
    | .fail => .httpError base
    | .ok title items =>
      .ok { base with
              feedTitle := if title = "" then url else title
              items := items }

/-- What one run of main.go `processFeed` did: whether `FetchFeed` was
called, the feed's metadata row afterwards, the sent-items state and delivery
log afterwards, and whether the delivery branches were reached. -/
structure PollResult where
  fetched : Bool
  meta : Option FeedMetadata
  state : SysState
  deliveryProcessed : Bool
deriving DecidableEq

/-- main.go `processFeed`: read the metadata row, apply the due-check guard,
fetch, and either record the failure (incrementing the error count, keeping
the cached validators) or record success metadata (the response's validators,
error count 0, next check one standard interval out) and run the delivery
branches. -/
def processFeed (dateUntil : String → Option Int) (sendOK : FeedItem → Bool)
    (feedURL : String) (meta : Option FeedMetadata) (fetch : FetchOutcome)
    (now : Int) (s : SysState) : PollResult :=
  let lastModified := match meta with | some m => m.lastModified | none => ""
  let etag := match meta with | some m => m.etag | none => ""
  let currentErrorCount := match meta with | some m => m.errorCount | none => 0
  if (match meta with | some m => dueSkip m now | none => false) then
    { fetched := false, meta := meta, state := s, deliveryProcessed := false }
  else
    match fetch with
    | .netError =>
      let newErrorCount := currentErrorCount + 1
      let nextCheck := calculateBackoff dateUntil now 0 "" newErrorCount
      { fetched := true
        meta := some (UpsertFeedMetadata feedURL lastModified etag 0
          newErrorCount nextCheck now)
        state := s
        deliveryProcessed := false }
    | .httpError r =>
      let newErrorCount := currentErrorCount + 1
      let nextCheck :=
        calculateBackoff dateUntil now r.statusCode r.retryAfter newErrorCount
      { fetched := true
        meta := some (UpsertFeedMetadata feedURL lastModified etag
          r.statusCode newErrorCount nextCheck now)
        state := s
        deliveryProcessed := false }
    | .ok r =>
      let meta2 := some (UpsertFeedMetadata feedURL r.lastModified r.etag
        r.statusCode 0 (now + StandardInterval) now)
      if r.notModified || r.items.isEmpty then
        { fetched := true, meta := meta2, state := s, deliveryProcessed := false }
      else if HasFeedItems s.sent feedURL then
        { fetched := true
          meta := meta2
          state := processExistingFeed sendOK feedURL r.items s
          deliveryProcessed := true }
      else
        { fetched := true
          meta := meta2
          state := processNewFeed sendOK feedURL r.items s
          deliveryProcessed := true }

/-! ## Store lemmas -/

theorem markItemSent_fst (st : SentStore) (f g : String) :
    (MarkItemSent st f g).1 = if (f, g) ∈ st then st else st ++ [(f, g)] := by
  by_cases h : (f, g) ∈ st <;> simp [MarkItemSent, insertSentItem, h]

theorem markItemSent_snd (st : SentStore) (f g : String) :
    (MarkItemSent st f g).2 = true := by
  by_cases h : (f, g) ∈ st <;> simp [MarkItemSent, insertSentItem, h]

theorem mem_markItemSent_iff (st : SentStore) (f g : String) (p : String × String) :
    p ∈ (MarkItemSent st f g).1 ↔ p ∈ st ∨ p = (f, g) := by
  rw [markItemSent_fst]
  by_cases h : (f, g) ∈ st
  · rw [if_pos h]
    exact ⟨Or.inl, fun hp => hp.elim id (fun e => e ▸ h)⟩
  · rw [if_neg h]
    simp

theorem mem_markItemSent_self (st : SentStore) (f g : String) :
    (f, g) ∈ (MarkItemSent st f g).1 :=
  (mem_markItemSent_iff st f g (f, g)).2 (Or.inr rfl)

theorem mem_markItemSent_mono (st : SentStore) (f g : String)
    (p : String × String) (hp : p ∈ st) : p ∈ (MarkItemSent st f g).1 :=
  (mem_markItemSent_iff st f g p).2 (Or.inl hp)

theorem isItemSent_false_iff (st : SentStore) (f g : String) :
    IsItemSent st f g = false ↔ (f, g) ∉ st := by
  simp [IsItemSent]

theorem hasFeedItems_false_not_mem (st : SentStore) (f : String)
    (h : HasFeedItems st f = false) (g : String) : (f, g) ∉ st := by
  intro hmem
  simp only [HasFeedItems, List.any_eq_false] at h
  have h2 := h _ hmem
  simp at h2

/-! ## Delivery-log lemmas -/

theorem okCount_append_entry (f g : String) (L : List Delivery) (d : Delivery) :
    okCount f g (L ++ [d]) =
      okCount f g L + if deliveredMatch f g d then 1 else 0 := by
  simp [okCount, List.countP_append, List.countP_cons]

theorem deliveredMatch_true_iff (f g : String) (d : Delivery) :
    deliveredMatch f g d = true ↔ d.feedURL = f ∧ d.guid = g ∧ d.ok = true := by
  simp [deliveredMatch, and_assoc]

theorem deliveredMatch_mk_iff (f g f2 g2 : String) (ok : Bool) :
    deliveredMatch f g ⟨f2, g2, ok⟩ = true ↔ f2 = f ∧ g2 = g ∧ ok = true := by
  simp [deliveredMatch, and_assoc]

theorem sendItem_log (sendOK : FeedItem → Bool) (f : String) (item : FeedItem)
    (s : SysState) :
    (sendItem sendOK f item s).log = s.log ++ [⟨f, item.guid, sendOK item⟩] := by
  cases h : sendOK item <;> simp [sendItem, h]

theorem sendItem_sent (sendOK : FeedItem → Bool) (f : String) (item : FeedItem)
    (s : SysState) :
    (sendItem sendOK f item s).sent =
      if sendOK item then (MarkItemSent s.sent f item.guid).1 else s.sent := by
  cases h : sendOK item <;> simp [sendItem, h]

/-! ## The at-most-once invariant (C1) -/

/-- In every reachable state, a pair already recorded as sent was delivered
at most once, and a pair not recorded was never successfully delivered. -/
def DeliveredInv (s : SysState) : Prop :=
  ∀ f g, okCount f g s.log ≤ if (f, g) ∈ s.sent then 1 else 0

theorem deliveredInv_mono (s : SysState) (sent2 : SentStore)
    (h : DeliveredInv s) (hsub : ∀ p, p ∈ s.sent → p ∈ sent2) :
    DeliveredInv ⟨sent2, s.log⟩ := by
  intro f g
  refine le_trans (h f g) ?_
  by_cases hm : (f, g) ∈ s.sent
  · simp [hm, hsub _ hm]
  · simp [hm]

theorem deliveredInv_sendItem (sendOK : FeedItem → Bool) (f : String)
    (item : FeedItem) (s : SysState)
    (h : DeliveredInv s) (hnot : (f, item.guid) ∉ s.sent) :
    DeliveredInv (sendItem sendOK f item s) := by
  intro f2 g2
  rw [sendItem_log, okCount_append_entry, sendItem_sent]
  cases hso : sendOK item with
  | false =>
    have hdm : deliveredMatch f2 g2 ⟨f, item.guid, false⟩ = false := by
      simp [deliveredMatch]
    rw [hdm, if_neg Bool.false_ne_true]
    simpa using h f2 g2
  | true =>
    rw [if_pos rfl]
    by_cases hdm : deliveredMatch f2 g2 ⟨f, item.guid, true⟩ = true
    · obtain ⟨hf2, hg2, -⟩ := (deliveredMatch_mk_iff f2 g2 f item.guid true).mp hdm
      subst hf2
      subst hg2
      rw [if_pos hdm]
      have h0 : okCount f item.guid s.log = 0 := by
        have hi := h f item.guid
        rw [if_neg hnot] at hi
        exact Nat.le_zero.mp hi
      rw [h0, if_pos (mem_markItemSent_self s.sent f item.guid)]
    · rw [Bool.not_eq_true] at hdm
      rw [hdm, if_neg Bool.false_ne_true, Nat.add_zero]
      refine le_trans (h f2 g2) ?_
      by_cases hm : (f2, g2) ∈ s.sent
      · rw [if_pos hm, if_pos (mem_markItemSent_mono s.sent f item.guid _ hm)]
      · rw [if_neg hm]
        exact Nat.zero_le _

theorem processExistingFeed_nil (sendOK : FeedItem → Bool) (f : String)
    (s : SysState) : processExistingFeed sendOK f [] s = s := rfl

theorem processExistingFeed_cons (sendOK : FeedItem → Bool) (f : String)
    (item : FeedItem) (rest : List FeedItem) (s : SysState) :
    processExistingFeed sendOK f (item :: rest) s =
      processExistingFeed sendOK f rest
        (if IsItemSent s.sent f item.guid then s else sendItem sendOK f item s) :=
  rfl

theorem deliveredInv_processExistingFeed (sendOK : FeedItem → Bool)
    (f : String) (items : List FeedItem) (s : SysState) (h : DeliveredInv s) :
    DeliveredInv (processExistingFeed sendOK f items s) := by
  induction items generalizing s with
  | nil => exact h
  | cons item rest ih =>
    rw [processExistingFeed_cons]
    apply ih
    cases hs : IsItemSent s.sent f item.guid with
    | true => simpa using h
    | false =>
      rw [if_neg Bool.false_ne_true]
      exact deliveredInv_sendItem sendOK f item s h
        ((isItemSent_false_iff s.sent f item.guid).mp hs)

theorem deliveredInv_markFold (f mrG : String) (items : List FeedItem)
    (s : SysState) (h : DeliveredInv s) :
    DeliveredInv (items.foldl (markOther f mrG) s) := by
  induction items generalizing s with
  | nil => exact h
  | cons item rest ih =>
    rw [List.foldl_cons]
    apply ih
    unfold markOther
    by_cases hg : item.guid ≠ mrG
    · rw [if_pos hg]
      exact deliveredInv_mono s _ h
        (fun p hp => mem_markItemSent_mono s.sent f item.guid p hp)
    · rw [if_neg hg]
      exact h

theorem deliveredInv_processNewFeed (sendOK : FeedItem → Bool) (f : String)
    (items : List FeedItem) (s : SysState)
    (h : DeliveredInv s) (hno : HasFeedItems s.sent f = false) :
    DeliveredInv (processNewFeed sendOK f items s) := by
  unfold processNewFeed
  cases hmr : GetMostRecentItem items with
  | none => exact h
  | some mr =>
    exact deliveredInv_markFold f mr.guid items _
      (deliveredInv_sendItem sendOK f mr s h (hasFeedItems_false_not_mem s.sent f hno mr.guid))

theorem deliveredInv_deliverStep (sendOK : FeedItem → Bool) (f : String)
    (items : List FeedItem) (s : SysState) (h : DeliveredInv s) :
    DeliveredInv (deliverStep sendOK f items s) := by
  unfold deliverStep
  by_cases he : items.isEmpty
  · rw [if_pos he]
    exact h
  · rw [if_neg he]
    cases hh : HasFeedItems s.sent f with
    | true =>
      rw [if_pos rfl]
      exact deliveredInv_processExistingFeed sendOK f items s h
    | false =>
      rw [if_neg Bool.false_ne_true]
      exact deliveredInv_processNewFeed sendOK f items s h hh

theorem deliveredInv_runCycles (events : List CycleEvent) :
    DeliveredInv (runCycles events) := by
  have h0 : DeliveredInv ⟨[], []⟩ := by
    intro f g
    simp [okCount]
  have main : ∀ (evs : List CycleEvent) (s : SysState), DeliveredInv s →
      DeliveredInv (evs.foldl (fun s e => deliverStep e.sendOK e.feedURL e.items s) s) := by
    intro evs
    induction evs with
    | nil => exact fun s hs => hs
    | cons e rest ih =>
      intro s hs
      rw [List.foldl_cons]
      exact ih _ (deliveredInv_deliverStep e.sendOK e.feedURL e.items s hs)
  exact main events ⟨[], []⟩ h0

theorem markFold_log (f mrG : String) (items : List FeedItem) (s : SysState) :
    (items.foldl (markOther f mrG) s).log = s.log := by
  induction items generalizing s with
  | nil => rfl
  | cons item rest ih =>
    rw [List.foldl_cons, ih]
    unfold markOther
    split <;> rfl

theorem processExistingFeed_no_reoffer (sendOK : FeedItem → Bool) (fu : String)
    (items : List FeedItem) :
    ∀ (s : SysState) (f g : String), (f, g) ∈ s.sent →
      (processExistingFeed sendOK fu items s).log.countP (offerMatch f g) =
        s.log.countP (offerMatch f g) := by
  induction items with
  | nil => intro s f g _; rfl
  | cons item rest ih =>
    intro s f g hmem
    rw [processExistingFeed_cons]
    by_cases hs : IsItemSent s.sent fu item.guid = true
    · rw [if_pos hs]
      exact ih s f g hmem
    · rw [if_neg hs]
      have hmem2 : (f, g) ∈ (sendItem sendOK fu item s).sent := by
        rw [sendItem_sent]
        split
        · exact mem_markItemSent_mono s.sent fu item.guid (f, g) hmem
        · exact hmem
      rw [ih _ f g hmem2, sendItem_log, List.countP_append]
      have hom : offerMatch f g ⟨fu, item.guid, sendOK item⟩ = false := by
        by_contra hc
        rw [Bool.not_eq_false] at hc
        simp only [offerMatch, Bool.and_eq_true, decide_eq_true_eq] at hc
        obtain ⟨h1, h2⟩ := hc
        apply hs
        simp [IsItemSent, h1, h2, hmem]
      simp [hom]

theorem deliverStep_no_reoffer (sendOK : FeedItem → Bool) (fu : String)
    (items : List FeedItem) (s : SysState) (f g : String)
    (hmem : (f, g) ∈ s.sent) :
    (deliverStep sendOK fu items s).log.countP (offerMatch f g) =
      s.log.countP (offerMatch f g) := by
  unfold deliverStep
  by_cases he : items.isEmpty = true
  · rw [if_pos he]
  · rw [if_neg he]
    by_cases hh : HasFeedItems s.sent fu = true
    · rw [if_pos hh]
      exact processExistingFeed_no_reoffer sendOK fu items s f g hmem
    · rw [if_neg hh]
      rw [Bool.not_eq_true] at hh
      have hne : f ≠ fu := by
        intro hfe
        exact hasFeedItems_false_not_mem s.sent fu hh g (hfe ▸ hmem)
      unfold processNewFeed
      cases GetMostRecentItem items with
      | none => rfl
      | some mr =>
        show (items.foldl (markOther fu mr.guid)
            (sendItem sendOK fu mr s)).log.countP (offerMatch f g) = _
        rw [markFold_log, sendItem_log, List.countP_append]
        have hom : offerMatch f g ⟨fu, mr.guid, sendOK mr⟩ = false := by
          by_contra hc
          rw [Bool.not_eq_false] at hc
          simp only [offerMatch, Bool.and_eq_true, decide_eq_true_eq] at hc
          exact hne hc.1.symm
        simp [hom]

/-- C1: across all poll cycles from process start, a pair `(feed_url, guid)`
is successfully delivered at most once, however often that GUID recurs in the
feed's fetched item lists; moreover once the pair is recorded sent, a further
cycle never hands it to the notification collaborator again at all:
`processExistingFeed` offers an item only when `IsItemSent` is false, and a
successful delivery is followed by `MarkItemSent`. (A hand-off whose
transmission fails is not a completed delivery: the spec mandates such items
be re-offered, and they stay unmarked.) -/
theorem c1_at_most_once_delivery (events : List CycleEvent) (f g : String) :
    okCount f g (runCycles events).log ≤ 1 ∧
    (∀ e : CycleEvent, (f, g) ∈ (runCycles events).sent →
      (runCycles (events ++ [e])).log.countP (offerMatch f g) =
        (runCycles events).log.countP (offerMatch f g)) := by
  constructor
  · refine le_trans (deliveredInv_runCycles events f g) ?_
    by_cases hm : (f, g) ∈ (runCycles events).sent
    · rw [if_pos hm]
    · rw [if_neg hm]
      exact Nat.zero_le _
  · intro e hmem
    have hsplit : runCycles (events ++ [e]) =
        deliverStep e.sendOK e.feedURL e.items (runCycles events) := by
      rw [runCycles, runCycles, List.foldl_append]
      rfl
    rw [hsplit]
    exact deliverStep_no_reoffer e.sendOK e.feedURL e.items (runCycles events) f g hmem

/-! ## GetMostRecentItem characterization (C2, C10) -/

theorem getMostRecentAux_cons_none (item : FeedItem) (rest : List FeedItem)
    (best : Option FeedItem) (hpub : item.published = none) :
    getMostRecentAux (item :: rest) best = getMostRecentAux rest best := by
  simp [getMostRecentAux, hpub]

theorem getMostRecentAux_cons_some_none (item : FeedItem)
    (rest : List FeedItem) (t : Int) (hpub : item.published = some t) :
    getMostRecentAux (item :: rest) none = getMostRecentAux rest (some item) := by
  simp [getMostRecentAux, hpub]

theorem getMostRecentAux_cons_some_some (item : FeedItem)
    (rest : List FeedItem) (b : FeedItem) (t bt : Int)
    (hpub : item.published = some t) (hbt : b.published = some bt) :
    getMostRecentAux (item :: rest) (some b) =
      if bt < t then getMostRecentAux rest (some item)
      else getMostRecentAux rest (some b) := by
  simp [getMostRecentAux, hpub, hbt]

theorem getMostRecentAux_spec (items : List FeedItem) (best : Option FeedItem)
    (hbest : ∀ b, best = some b → ∃ bt, b.published = some bt) :
    (getMostRecentAux items best).2 = true ∧
    ((getMostRecentAux items best).1 = none ↔
      (best = none ∧ ∀ i ∈ items, i.published = none)) ∧
    (∀ x, (getMostRecentAux items best).1 = some x →
      (x ∈ items ∨ best = some x) ∧
      ∃ t, x.published = some t ∧
        (∀ i ∈ items, ∀ u, i.published = some u → u ≤ t) ∧
        (∀ b bt, best = some b → b.published = some bt → bt ≤ t)) := by
  induction items generalizing best with
  | nil =>
    refine ⟨rfl, by simp [getMostRecentAux], ?_⟩
    intro x hx
    have hx2 : best = some x := hx
    obtain ⟨bt, hbt⟩ := hbest x hx2
    refine ⟨Or.inr hx2, bt, hbt, ?_, ?_⟩
    · intro i hi
      cases hi
    intro b bt2 hb hb2
    rw [hx2] at hb
    injection hb with hbx
    subst hbx
    rw [hbt] at hb2
    injection hb2 with he
    omega
  | cons item rest ih =>
    cases hpub : item.published with
    | none =>
      rw [getMostRecentAux_cons_none item rest best hpub]
      obtain ⟨ih1, ih2, ih3⟩ := ih best hbest
      refine ⟨ih1, ?_, ?_⟩
      · rw [ih2]
        constructor
        · rintro ⟨hb, hall⟩
          refine ⟨hb, ?_⟩
          intro i hi
          rcases List.mem_cons.mp hi with rfl | hi2
          · exact hpub
          · exact hall i hi2
        · rintro ⟨hb, hall⟩
          exact ⟨hb, fun i hi => hall i (List.mem_cons_of_mem item hi)⟩
      · intro x hx
        obtain ⟨hmem, t, ht, hub, hbb⟩ := ih3 x hx
        refine ⟨?_, t, ht, ?_, hbb⟩
        · rcases hmem with hm | hm
          · exact Or.inl (List.mem_cons_of_mem item hm)
          · exact Or.inr hm
        · intro i hi u hu
          rcases List.mem_cons.mp hi with rfl | hi2
          · rw [hpub] at hu
            cases hu
          · exact hub i hi2 u hu
    | some t =>
      cases best with
      | none =>
        rw [getMostRecentAux_cons_some_none item rest t hpub]
        have hbest2 : ∀ b, some item = some b → ∃ bt, b.published = some bt := by
          intro b hb
          injection hb with hb2
          exact ⟨t, hb2 ▸ hpub⟩
        obtain ⟨ih1, ih2, ih3⟩ := ih (some item) hbest2
        refine ⟨ih1, ?_, ?_⟩
        · rw [ih2]
          constructor
          · rintro ⟨hc, -⟩
            cases hc
          · rintro ⟨-, hall⟩
            have hct := hall item (List.mem_cons_self item rest)
            rw [hpub] at hct
            cases hct
        · intro x hx
          obtain ⟨hmem, tx, htx, hub, hbb⟩ := ih3 x hx
          refine ⟨?_, tx, htx, ?_, ?_⟩
          · rcases hmem with hm | hm
            · exact Or.inl (List.mem_cons_of_mem item hm)
            · injection hm with hm2
              exact Or.inl (by rw [← hm2]; exact List.mem_cons_self item rest)
          · intro i hi u hu
            rcases List.mem_cons.mp hi with heq | hi2
            · rw [heq, hpub] at hu
              injection hu with hu2
              have htt := hbb item t rfl hpub
              omega
            · exact hub i hi2 u hu
          · intro b2 bt2 hb2 hbc2
            cases hb2
      | some b =>
        obtain ⟨bt, hbt⟩ := hbest b rfl
        rw [getMostRecentAux_cons_some_some item rest b t bt hpub hbt]
        by_cases hlt : bt < t
        · rw [if_pos hlt]
          have hbest2 : ∀ b2, some item = some b2 → ∃ u, b2.published = some u := by
            intro b2 hb2
            injection hb2 with hb3
            exact ⟨t, hb3 ▸ hpub⟩
          obtain ⟨ih1, ih2, ih3⟩ := ih (some item) hbest2
          refine ⟨ih1, ?_, ?_⟩
          · rw [ih2]
            constructor
            · rintro ⟨hc, -⟩
              cases hc
            · rintro ⟨hc, -⟩
              cases hc
          · intro x hx
            obtain ⟨hmem, tx, htx, hub, hbb⟩ := ih3 x hx
            have htt : t ≤ tx := hbb item t rfl hpub
            refine ⟨?_, tx, htx, ?_, ?_⟩
            · rcases hmem with hm | hm
              · exact Or.inl (List.mem_cons_of_mem item hm)
              · injection hm with hm2
                exact Or.inl (by rw [← hm2]; exact List.mem_cons_self item rest)
            · intro i hi u hu
              rcases List.mem_cons.mp hi with rfl | hi2
              · rw [hpub] at hu
                injection hu with hu2
                omega
              · exact hub i hi2 u hu
            · intro b2 bt2 hb2 hbc2
              injection hb2 with hb3
              rw [← hb3] at hbc2
              rw [hbt] at hbc2
              injection hbc2 with he
              omega
        · rw [if_neg hlt]
          have hbest2 : ∀ b2, some b = some b2 → ∃ u, b2.published = some u := by
            intro b2 hb2
            injection hb2 with hb3
            exact ⟨bt, hb3 ▸ hbt⟩
          obtain ⟨ih1, ih2, ih3⟩ := ih (some b) hbest2
          refine ⟨ih1, ?_, ?_⟩
          · rw [ih2]
            constructor
            · rintro ⟨hc, -⟩
              cases hc
            · rintro ⟨hc, -⟩
              cases hc
          · intro x hx
            obtain ⟨hmem, tx, htx, hub, hbb⟩ := ih3 x hx
            have hbtx : bt ≤ tx := hbb b bt rfl hbt
            refine ⟨?_, tx, htx, ?_, ?_⟩
            · rcases hmem with hm | hm
              · exact Or.inl (List.mem_cons_of_mem item hm)
              · exact Or.inr hm
            · intro i hi u hu
              rcases List.mem_cons.mp hi with rfl | hi2
              · rw [hpub] at hu
                injection hu with hu2
                omega
              · exact hub i hi2 u hu
            · intro b2 bt2 hb2 hbc2
              injection hb2 with hb3
              rw [← hb3] at hbc2
              rw [hbt] at hbc2
              injection hbc2 with he
              omega

theorem getMostRecentItem_spec (items : List FeedItem) (hne : items ≠ []) :
    ∃ mr, GetMostRecentItem items = some mr ∧ mr ∈ items ∧
      ((∀ i ∈ items, i.published = none) → items.head? = some mr) ∧
      ((∃ i ∈ items, i.published ≠ none) →
        ∃ t, mr.published = some t ∧
          ∀ i ∈ items, ∀ u, i.published = some u → u ≤ t) := by
  match items, hne with
  | first :: rest, _ =>
    obtain ⟨haux1, haux2, haux3⟩ :=
      getMostRecentAux_spec (first :: rest) none (by intro b hb; cases hb)
    cases hres : (getMostRecentAux (first :: rest) none).1 with
    | none =>
      obtain ⟨-, hall⟩ := haux2.mp hres
      refine ⟨first, ?_, List.mem_cons_self first rest, ?_, ?_⟩
      · simp [GetMostRecentItem, hres]
      · intro _h
        rfl
      · rintro ⟨i, hi, hne2⟩
        exact absurd (hall i hi) hne2
    | some x =>
      obtain ⟨hmem, t, ht, hub, -⟩ := haux3 x hres
      have hxmem : x ∈ first :: rest := by
        rcases hmem with hm | hm
        · exact hm
        · cases hm
      refine ⟨x, ?_, hxmem, ?_, ?_⟩
      · simp [GetMostRecentItem, hres]
      · intro hall
        rw [hall x hxmem] at ht
        cases ht
      · intro _h
        exact ⟨t, ht, hub⟩

/-- C10: `GetMostRecentItem` is total, returns nil exactly on the empty list,
returns an element of its input on every non-empty list, and its comparison
loop never dereferences a nil `Published` pointer (the safety flag of
`getMostRecentAux` is always true). -/
theorem c10_get_most_recent_item_safe (items : List FeedItem) :
    (getMostRecentAux items none).2 = true ∧
    (GetMostRecentItem items = none ↔ items = []) ∧
    (∀ x, GetMostRecentItem items = some x → x ∈ items) := by
  cases items with
  | nil =>
    refine ⟨rfl, by simp [GetMostRecentItem], ?_⟩
    intro x hx
    cases hx
  | cons first rest =>
    obtain ⟨haux1, haux2, haux3⟩ :=
      getMostRecentAux_spec (first :: rest) none (by intro b hb; cases hb)
    refine ⟨haux1, ?_, ?_⟩
    · constructor
      · intro h
        exfalso
        cases hres : (getMostRecentAux (first :: rest) none).1 with
        | none => simp [GetMostRecentItem, hres] at h
        | some x => simp [GetMostRecentItem, hres] at h
      · intro h
        cases h
    · intro x hx
      cases hres : (getMostRecentAux (first :: rest) none).1 with
      | none =>
        simp [GetMostRecentItem, hres] at hx
        rw [← hx]
        exact List.mem_cons_self first rest
      | some y =>
        simp [GetMostRecentItem, hres] at hx
        obtain ⟨hmem, -⟩ := haux3 y hres
        rcases hmem with hm | hm
        · rw [← hx]
          exact hm
        · cases hm

/-! ## The new-feed branch (C2) -/

theorem markFold_sent_mono (f mrG : String) (items : List FeedItem) :
    ∀ (s : SysState) (p : String × String), p ∈ s.sent →
      p ∈ (items.foldl (markOther f mrG) s).sent := by
  induction items with
  | nil => exact fun s p hp => hp
  | cons item rest ih =>
    intro s p hp
    rw [List.foldl_cons]
    apply ih
    unfold markOther
    split
    · exact mem_markItemSent_mono s.sent f item.guid p hp
    · exact hp

theorem markFold_marks (f mrG : String) (items : List FeedItem) :
    ∀ (s : SysState) (i : FeedItem), i ∈ items → i.guid ≠ mrG →
      (f, i.guid) ∈ (items.foldl (markOther f mrG) s).sent := by
  induction items with
  | nil =>
    intro s i hi
    cases hi
  | cons item rest ih =>
    intro s i hi hg
    rw [List.foldl_cons]
    rcases List.mem_cons.mp hi with heq | hi2
    · have hg2 : item.guid ≠ mrG := heq ▸ hg
      apply markFold_sent_mono
      unfold markOther
      rw [if_pos hg2, heq]
      exact mem_markItemSent_self s.sent f item.guid
    · exact ih _ i hi2 hg

/-- C2: on a feed with no prior sent-items rows and a non-empty fetched list,
the new-feed branch hands exactly one item to the notification collaborator —
the one `GetMostRecentItem` selects, which carries the latest non-nil publish
time (the first item in feed order when no item has one) — and records every
other fetched item as sent without any notification for it. -/
theorem c2_new_feed_first_run (sendOK : FeedItem → Bool) (f : String)
    (items : List FeedItem) (sent : SentStore)
    (hne : items ≠ []) (_hnew : HasFeedItems sent f = false) :
    ∃ mr, GetMostRecentItem items = some mr ∧ mr ∈ items ∧
      (processNewFeed sendOK f items ⟨sent, []⟩).log = [⟨f, mr.guid, sendOK mr⟩] ∧
      ((∃ i ∈ items, i.published ≠ none) →
        ∃ t, mr.published = some t ∧
          ∀ i ∈ items, ∀ u, i.published = some u → u ≤ t) ∧
      ((∀ i ∈ items, i.published = none) → items.head? = some mr) ∧
      (∀ i ∈ items, i.guid ≠ mr.guid →
        (f, i.guid) ∈ (processNewFeed sendOK f items ⟨sent, []⟩).sent ∧
        ∀ d ∈ (processNewFeed sendOK f items ⟨sent, []⟩).log, d.guid ≠ i.guid) := by
  obtain ⟨mr, hmr, hmem, hhead, hlatest⟩ := getMostRecentItem_spec items hne
  have hlog : (processNewFeed sendOK f items ⟨sent, []⟩).log =
      [⟨f, mr.guid, sendOK mr⟩] := by
    unfold processNewFeed
    rw [hmr, markFold_log, sendItem_log]
    rfl
  refine ⟨mr, hmr, hmem, hlog, hlatest, hhead, ?_⟩
  intro i hi hg
  constructor
  · unfold processNewFeed
    rw [hmr]
    exact markFold_marks f mr.guid items _ i hi hg
  · intro d hd
    rw [hlog] at hd
    rw [List.mem_singleton.mp hd]
    intro he
    exact hg he.symm

/-- A three-item new feed with publish times 1 < 2 < 3 (the spec's T1, T2,
T3 example), used as concrete input. -/
def demoItemT1 : FeedItem := ⟨"post one", "https://blog/1", "g1", some 1, "s1"⟩

def demoItemT2 : FeedItem := ⟨"post two", "https://blog/2", "g2", some 2, "s2"⟩

def demoItemT3 : FeedItem := ⟨"post three", "https://blog/3", "g3", some 3, "s3"⟩

def demoItems : List FeedItem := [demoItemT1, demoItemT2, demoItemT3]

/-- A mail collaborator whose transmissions all succeed. -/
def demoSendOK : FeedItem → Bool := fun _ => true

/-- A mail collaborator whose transmissions all fail. -/
def neverSendOK : FeedItem → Bool := fun _ => false

theorem c2_new_feed_first_run_witness :
    ∃ mr, GetMostRecentItem demoItems = some mr ∧ mr ∈ demoItems ∧
      (processNewFeed demoSendOK "feedA" demoItems ⟨[], []⟩).log =
        [⟨"feedA", mr.guid, demoSendOK mr⟩] ∧
      ((∃ i ∈ demoItems, i.published ≠ none) →
        ∃ t, mr.published = some t ∧
          ∀ i ∈ demoItems, ∀ u, i.published = some u → u ≤ t) ∧
      ((∀ i ∈ demoItems, i.published = none) → demoItems.head? = some mr) ∧
      (∀ i ∈ demoItems, i.guid ≠ mr.guid →
        ("feedA", i.guid) ∈ (processNewFeed demoSendOK "feedA" demoItems ⟨[], []⟩).sent ∧
        ∀ d ∈ (processNewFeed demoSendOK "feedA" demoItems ⟨[], []⟩).log,
          d.guid ≠ i.guid) :=
  c2_new_feed_first_run demoSendOK "feedA" demoItems [] (by decide) rfl

/-! ## Transmission failure and retry (C8) -/

theorem processExistingFeed_log_mono (sendOK : FeedItem → Bool) (f : String)
    (items : List FeedItem) :
    ∀ (s : SysState) (d : Delivery), d ∈ s.log →
      d ∈ (processExistingFeed sendOK f items s).log := by
  induction items with
  | nil => exact fun s d hd => hd
  | cons item rest ih =>
    intro s d hd
    rw [processExistingFeed_cons]
    apply ih
    split
    · exact hd
    · rw [sendItem_log]
      exact List.mem_append.mpr (Or.inl hd)

theorem processExistingFeed_log_entries (sendOK : FeedItem → Bool) (f : String)
    (items : List FeedItem) :
    ∀ (s : SysState) (d : Delivery), d ∈ (processExistingFeed sendOK f items s).log →
      d ∈ s.log ∨ (d.feedURL = f ∧ ∃ j ∈ items, j.guid = d.guid ∧ d.ok = sendOK j) := by
  induction items with
  | nil => exact fun s d hd => Or.inl hd
  | cons item rest ih =>
    intro s d hd
    rw [processExistingFeed_cons] at hd
    rcases ih _ d hd with hold | ⟨hf, j, hj, hjg, hjo⟩
    · by_cases hs : IsItemSent s.sent f item.guid = true
      · rw [if_pos hs] at hold
        exact Or.inl hold
      · rw [if_neg hs] at hold
        rw [sendItem_log] at hold
        rcases List.mem_append.mp hold with h1 | h2
        · exact Or.inl h1
        · rw [List.mem_singleton.mp h2]
          exact Or.inr ⟨rfl, item, List.mem_cons_self item rest, rfl, rfl⟩
    · exact Or.inr ⟨hf, j, List.mem_cons_of_mem item hj, hjg, hjo⟩

theorem processExistingFeed_sent_entries (sendOK : FeedItem → Bool) (f : String)
    (items : List FeedItem) :
    ∀ (s : SysState) (p : String × String),
      p ∈ (processExistingFeed sendOK f items s).sent →
      p ∈ s.sent ∨ ∃ j ∈ items, p = (f, j.guid) ∧ sendOK j = true := by
  induction items with
  | nil => exact fun s p hp => Or.inl hp
  | cons item rest ih =>
    intro s p hp
    rw [processExistingFeed_cons] at hp
    rcases ih _ p hp with hold | ⟨j, hj, hpe, hjo⟩
    · by_cases hs : IsItemSent s.sent f item.guid = true
      · rw [if_pos hs] at hold
        exact Or.inl hold
      · rw [if_neg hs] at hold
        rw [sendItem_sent] at hold
        by_cases hso : sendOK item = true
        · rw [if_pos hso] at hold
          rcases (mem_markItemSent_iff s.sent f item.guid p).mp hold with h1 | h2
          · exact Or.inl h1
          · exact Or.inr ⟨item, List.mem_cons_self item rest, h2, hso⟩
        · rw [if_neg hso] at hold
          exact Or.inl hold
    · exact Or.inr ⟨j, List.mem_cons_of_mem item hj, hpe, hjo⟩

theorem processExistingFeed_offers (sendOK : FeedItem → Bool) (f : String)
    (items : List FeedItem) :
    ∀ (s : SysState) (g : String), (f, g) ∉ s.sent → (∃ j ∈ items, j.guid = g) →
      ∃ d ∈ (processExistingFeed sendOK f items s).log,
        d.feedURL = f ∧ d.guid = g := by
  induction items with
  | nil =>
    rintro s g hns ⟨j, hj, -⟩
    cases hj
  | cons item rest ih =>
    rintro s g hns ⟨j, hj, hjg⟩
    rw [processExistingFeed_cons]
    by_cases higuid : item.guid = g
    · have hs : IsItemSent s.sent f item.guid = false := by
        rw [isItemSent_false_iff, higuid]
        exact hns
      rw [if_neg (by rw [hs]; exact Bool.false_ne_true)]
      refine ⟨⟨f, item.guid, sendOK item⟩, ?_, rfl, higuid⟩
      apply processExistingFeed_log_mono
      rw [sendItem_log]
      exact List.mem_append.mpr (Or.inr (List.mem_singleton.mpr rfl))
    · rcases List.mem_cons.mp hj with heq | hj2
      · rw [heq] at hjg
        exact absurd hjg higuid
      · apply ih
        · split
          · exact hns
          · rw [sendItem_sent]
            split
            · intro hmemp
              rcases (mem_markItemSent_iff s.sent f item.guid (f, g)).mp hmemp with h1 | h2
              · exact hns h1
              · injection h2 with h2a h2b
                exact higuid h2b.symm
            · exact hns
        · exact ⟨j, hj2, hjg⟩

/-- C8: when transmission fails, the item is not marked sent — marking
happens only after confirmed transmission success — and a later cycle that
fetches the feed and finds the item undelivered offers it for delivery
again. -/
theorem c8_transmission_failure_retry (sendOK sendOK2 : FeedItem → Bool)
    (f : String) (items items2 : List FeedItem) (sent : SentStore)
    (item : FeedItem)
    (hmem : item ∈ items)
    (hnot : (f, item.guid) ∉ sent)
    (hfail : ∀ j ∈ items, j.guid = item.guid → sendOK j = false)
    (hmem2 : ∃ j ∈ items2, j.guid = item.guid) :
    (∃ d ∈ (processExistingFeed sendOK f items ⟨sent, []⟩).log,
       d.feedURL = f ∧ d.guid = item.guid ∧ d.ok = false) ∧
    (f, item.guid) ∉ (processExistingFeed sendOK f items ⟨sent, []⟩).sent ∧
    (∀ g, (f, g) ∉ sent →
      (f, g) ∈ (processExistingFeed sendOK f items ⟨sent, []⟩).sent →
      ∃ j ∈ items, j.guid = g ∧ sendOK j = true) ∧
    (∃ d ∈ (processExistingFeed sendOK2 f items2
        ⟨(processExistingFeed sendOK f items ⟨sent, []⟩).sent, []⟩).log,
       d.feedURL = f ∧ d.guid = item.guid) := by
  have hunsent : (f, item.guid) ∉ (processExistingFeed sendOK f items ⟨sent, []⟩).sent := by
    intro hmemp
    rcases processExistingFeed_sent_entries sendOK f items ⟨sent, []⟩ _ hmemp with
      h1 | ⟨j, hj, hpe, hjo⟩
    · exact hnot h1
    · injection hpe with hpa hpb
      rw [hfail j hj hpb.symm] at hjo
      cases hjo
  refine ⟨?_, hunsent, ?_, ?_⟩
  · obtain ⟨d, hd, hdf, hdg⟩ :=
      processExistingFeed_offers sendOK f items ⟨sent, []⟩ item.guid hnot
        ⟨item, hmem, rfl⟩
    refine ⟨d, hd, hdf, hdg, ?_⟩
    rcases processExistingFeed_log_entries sendOK f items ⟨sent, []⟩ d hd with
      h0 | ⟨-, j, hj, hjg, hjo⟩
    · cases h0
    · rw [hjo, hfail j hj (by rw [hjg, hdg])]
  · intro g hgns hgmem
    rcases processExistingFeed_sent_entries sendOK f items ⟨sent, []⟩ _ hgmem with
      h1 | ⟨j, hj, hpe, hjo⟩
    · exact absurd h1 hgns
    · injection hpe with hpa hpb
      exact ⟨j, hj, hpb.symm, hjo⟩
  · exact processExistingFeed_offers sendOK2 f items2 _ item.guid hunsent hmem2

/-- A single item whose first delivery attempt fails, for the concrete C8
instance. -/
def demoFailItem : FeedItem := ⟨"flaky post", "https://blog/x", "gx", none, "sx"⟩

theorem c8_transmission_failure_retry_witness :
    (∃ d ∈ (processExistingFeed neverSendOK "feedB" [demoFailItem] ⟨[], []⟩).log,
       d.feedURL = "feedB" ∧ d.guid = demoFailItem.guid ∧ d.ok = false) ∧
    ("feedB", demoFailItem.guid) ∉
      (processExistingFeed neverSendOK "feedB" [demoFailItem] ⟨[], []⟩).sent ∧
    (∀ g, ("feedB", g) ∉ ([] : SentStore) →
      ("feedB", g) ∈ (processExistingFeed neverSendOK "feedB" [demoFailItem] ⟨[], []⟩).sent →
      ∃ j ∈ [demoFailItem], j.guid = g ∧ neverSendOK j = true) ∧
    (∃ d ∈ (processExistingFeed demoSendOK "feedB" [demoFailItem]
        ⟨(processExistingFeed neverSendOK "feedB" [demoFailItem] ⟨[], []⟩).sent, []⟩).log,
       d.feedURL = "feedB" ∧ d.guid = demoFailItem.guid) :=
  c8_transmission_failure_retry neverSendOK demoSendOK "feedB" [demoFailItem]
    [demoFailItem] [] demoFailItem (by decide) (by decide) (by decide) (by decide)

/-! ## MarkItemSent idempotence and uniqueness (C9) -/

/-- Any sequence of MarkItemSent calls against the store. -/
def runMarks (store : SentStore) (calls : List (String × String)) : SentStore :=
  calls.foldl (fun st c => (MarkItemSent st c.1 c.2).1) store

theorem runMarks_nodup (calls : List (String × String)) :
    ∀ store : SentStore, store.Nodup → (runMarks store calls).Nodup := by
  induction calls with
  | nil => exact fun store h => h
  | cons c cs ih =>
    intro store h
    apply ih
    show List.Nodup (MarkItemSent store c.1 c.2).1
    rw [markItemSent_fst]
    by_cases hin : (c.1, c.2) ∈ store
    · rw [if_pos hin]
      exact h
    · rw [if_neg hin]
      rw [List.nodup_append]
      exact ⟨h, List.nodup_singleton _,
        fun x hx hx2 => hin (List.mem_singleton.mp hx2 ▸ hx)⟩

/-- C9: a second MarkItemSent for a pair already in the store returns success
and leaves the store unchanged (the UNIQUE-constraint failure is a swallowed
no-op), and any sequence of MarkItemSent calls keeps the rows pairwise
distinct. -/
theorem c9_mark_item_sent_idempotent (store : SentStore) (f g : String)
    (hpresent : (f, g) ∈ store) :
    MarkItemSent store f g = (store, true) ∧
    (∀ calls : List (String × String), store.Nodup →
      (runMarks store calls).Nodup) := by
  constructor
  · simp [MarkItemSent, insertSentItem, hpresent]
  · intro calls
    exact runMarks_nodup calls store

theorem c9_mark_item_sent_idempotent_witness :
    MarkItemSent [("feedC", "g9")] "feedC" "g9" = ([("feedC", "g9")], true) ∧
    (∀ calls : List (String × String), [(("feedC" : String), ("g9" : String))].Nodup →
      (runMarks [("feedC", "g9")] calls).Nodup) :=
  c9_mark_item_sent_idempotent [("feedC", "g9")] "feedC" "g9" (by decide)

/-! ## The due check (C7) -/

/-- C7: with a stored metadata row, a scheduling tick skips the feed entirely
— no fetch call, no state written — exactly when next_check_after is set and
still in the future or the time since last_checked is under the standard
interval; a feed satisfying neither guard is fetched. -/
theorem c7_due_check_gating (dateUntil : String → Option Int)
    (sendOK : FeedItem → Bool) (f : String) (m : FeedMetadata)
    (fetch : FetchOutcome) (now : Int) (s : SysState) :
    (dueSkip m now = true ↔
      ((∃ t, m.nextCheckAfter = some t ∧ now < t) ∨
        now - m.lastChecked < StandardInterval)) ∧
    (dueSkip m now = true →
      processFeed dateUntil sendOK f (some m) fetch now s =
        ⟨false, some m, s, false⟩) ∧
    (dueSkip m now = false →
      (processFeed dateUntil sendOK f (some m) fetch now s).fetched = true) := by
  refine ⟨?_, ?_, ?_⟩
  · unfold dueSkip
    cases hnc : m.nextCheckAfter with
    | none => simp
    | some t => simp
  · intro h
    simp [processFeed, h]
  · intro h
    cases fetch with
    | netError => simp [processFeed, h]
    | httpError r => simp [processFeed, h]
    | ok r =>
      simp only [processFeed, h, Bool.false_eq_true, if_false]
      split
      · rfl
      · split <;> rfl

/-! ## Failure-path metadata updates (C4) -/

/-- C4: a poll ending in a fetch failure increments the persisted error
counter by exactly one, computes the next check with the backoff policy at
the incremented count, and writes back the previously cached validators
unchanged, touching no delivery state. -/
theorem c4_fetch_failure_preserves_validators (dateUntil : String → Option Int)
    (sendOK : FeedItem → Bool) (f : String) (m : FeedMetadata) (r : FeedResult)
    (now : Int) (s : SysState) (hdue : dueSkip m now = false) :
    processFeed dateUntil sendOK f (some m) (.httpError r) now s =
      ⟨true,
        some ⟨f, m.lastModified, m.etag, now, r.statusCode,
          some (calculateBackoff dateUntil now r.statusCode r.retryAfter
            (m.errorCount + 1)),
          m.errorCount + 1⟩,
        s, false⟩ ∧
    processFeed dateUntil sendOK f (some m) .netError now s =
      ⟨true,
        some ⟨f, m.lastModified, m.etag, now, 0,
          some (calculateBackoff dateUntil now 0 "" (m.errorCount + 1)),
          m.errorCount + 1⟩,
        s, false⟩ := by
  constructor <;> simp [processFeed, hdue, UpsertFeedMetadata]

/-- A metadata row with cached validators and a due feed, for concrete
instances. -/
def demoMeta : FeedMetadata :=
  ⟨"https://u", "Mon, 06 Jan 2025 00:00:00 GMT", "etag-v1", 0, 200, some 5, 2⟩

/-- The FeedResult FetchFeed returns alongside its error for an HTTP 500. -/
def demoErrResult : FeedResult := ⟨"", [], "", "", "", 500, false⟩

theorem c4_fetch_failure_preserves_validators_witness :
    processFeed (fun _ => none) demoSendOK "https://u" (some demoMeta)
        (.httpError demoErrResult) StandardInterval ⟨[], []⟩ =
      ⟨true,
        some ⟨"https://u", demoMeta.lastModified, demoMeta.etag, StandardInterval,
          demoErrResult.statusCode,
          some (calculateBackoff (fun _ => none) StandardInterval
            demoErrResult.statusCode demoErrResult.retryAfter
            (demoMeta.errorCount + 1)),
          demoMeta.errorCount + 1⟩,
        ⟨[], []⟩, false⟩ ∧
    processFeed (fun _ => none) demoSendOK "https://u" (some demoMeta)
        .netError StandardInterval ⟨[], []⟩ =
      ⟨true,
        some ⟨"https://u", demoMeta.lastModified, demoMeta.etag, StandardInterval, 0,
          some (calculateBackoff (fun _ => none) StandardInterval 0 ""
            (demoMeta.errorCount + 1)),
          demoMeta.errorCount + 1⟩,
        ⟨[], []⟩, false⟩ :=
  c4_fetch_failure_preserves_validators (fun _ => none) demoSendOK "https://u"
    demoMeta demoErrResult StandardInterval ⟨[], []⟩ (by decide)

/-! ## The 304 path (C3, code bug) -/

/-- A metadata row holding non-empty cached validators. -/
def demoMeta304 : FeedMetadata :=
  ⟨"https://u", "Mon, 06 Jan 2025 00:00:00 GMT", "etag-v1", 0, 200, some 5, 0⟩

/-- C3 evaluated at a 304 response that omits its validator headers: the
orchestrator passes the response's (empty) Last-Modified and ETag to the
metadata upsert, so the previously cached validators are cleared — the claim
and the spec require them to be retained — while, as claimed, no delivery
processing runs and the sent-items state is untouched. -/
theorem c3_not_modified_clears_validators :
    processFeed (fun _ => none) demoSendOK "https://u" (some demoMeta304)
        (fetchClassify "https://u" ⟨304, "", "", ""⟩ .fail) StandardInterval
        ⟨[("https://u", "g1")], []⟩ =
      ⟨true,
        some ⟨"https://u", "", "", StandardInterval, 304,
          some (StandardInterval + StandardInterval), 0⟩,
        ⟨[("https://u", "g1")], []⟩, false⟩ ∧
    demoMeta304.lastModified ≠ "" ∧ demoMeta304.etag ≠ "" := by
  refine ⟨by decide, by decide, by decide⟩

/-! ## Backoff arithmetic (C5, code bug; C6) -/

/-- C5 evaluated: the backoff delays at error counts 1, 2, 3 and 10 are 60,
120, 240 and 1440 minutes as the claim states, but at error count 23 the
int64 nanosecond product `StandardInterval * 2^22` wraps negative, the 24-hour
cap does not apply, and the minimum clamp raises the result to the standard
interval — 60 minutes where the claim requires 1440. -/
theorem c5_backoff_overflow_at_23 :
    backoffDuration 1 = 60 * goMinute ∧
    backoffDuration 2 = 120 * goMinute ∧
    backoffDuration 3 = 240 * goMinute ∧
    backoffDuration 10 = 1440 * goMinute ∧
    calculateBackoff (fun _ => none) 0 0 "" 23 = 60 * goMinute ∧
    wrap64 (StandardInterval * powDur (23 - 1)) < 0 ∧
    (60 : Int) * goMinute ≠ 1440 * goMinute := by
  refine ⟨by decide, by decide, by decide, by decide, by decide, by decide, by decide⟩

theorem wrap64_eq_self (x : Int) (h : -(2 ^ 63) ≤ x ∧ x < 2 ^ 63) :
    wrap64 x = x := by
  obtain ⟨h1, h2⟩ := h
  unfold wrap64
  have h3 : 0 ≤ x + 2 ^ 63 := by omega
  have h4 : x + 2 ^ 63 < 2 ^ 64 := by omega
  rw [Int.emod_eq_of_lt h3 h4]
  omega

/-- C6 counterexample: a present, valid Retry-After of "0" (zero is a valid
integer count of seconds) is not honored as `now + 0`: `parseRetryAfter`
yields 0, the strictly-positive guard rejects it, and the exponential backoff
formula schedules a full standard interval instead. -/
theorem c6_retry_after_zero_not_honored :
    goAtoi "0" = some 0 ∧
    calculateBackoff (fun _ => none) 0 429 "0" 1 = StandardInterval ∧
    StandardInterval ≠ 0 := by
  refine ⟨by decide, by decide, by decide⟩

/-- C6 (amended): a 410 Gone schedules the next check 365 days out — at
least 300 days — regardless of error count and Retry-After; otherwise any
Retry-After parsing to a strictly positive duration (in particular a positive
in-range integer count of seconds) is honored exactly as `now + duration`,
overriding the exponential backoff regardless of error count. -/
theorem c6_gone_and_retry_after_priority (dateUntil : String → Option Int)
    (now status : Int) (retryAfter : String) (errorCount : Int) :
    (calculateBackoff dateUntil now 410 retryAfter errorCount =
        now + 365 * 24 * goHour ∧
      now + 300 * 24 * goHour ≤ now + 365 * 24 * goHour) ∧
    (status ≠ 410 → 0 < parseRetryAfter dateUntil retryAfter →
      calculateBackoff dateUntil now status retryAfter errorCount =
        now + parseRetryAfter dateUntil retryAfter) ∧
    (∀ sec : Int, goAtoi retryAfter = some sec → 0 ≤ sec →
      sec * goSecond < 2 ^ 63 →
      parseRetryAfter dateUntil retryAfter = sec * goSecond) := by
  refine ⟨⟨?_, ?_⟩, ?_, ?_⟩
  · simp [calculateBackoff]
  · simp only [goHour, goMinute, goSecond]
    omega
  · intro h410 hpos
    simp only [calculateBackoff]
    rw [if_neg h410, if_pos hpos]
  · intro sec hsec hnonneg hrange
    have hne : retryAfter ≠ "" := by
      intro he
      rw [he] at hsec
      have hz : goAtoi "" = none := rfl
      rw [hz] at hsec
      cases hsec
    simp only [parseRetryAfter]
    rw [if_neg hne, hsec]
    show wrap64 (sec * goSecond) = sec * goSecond
    apply wrap64_eq_self
    constructor
    · have hp : 0 ≤ sec * goSecond :=
        mul_nonneg hnonneg (by norm_num [goSecond])
      omega
    · exact hrange

end RssEmail
